import Mathlib

/- Verification of the evidence-traced RAG pipeline core: document chunking
   (DocumentProcessor), similarity search (VectorStore), the bounded-retry
   structured-generation protocol (OllamaClient), and query orchestration with
   evidence reconciliation (RAGPipeline). JS strings are modelled as lists of
   characters, JS numbers as exact rationals (reals where square roots occur),
   and calls to external collaborators (models, SQL) as oracle parameters. -/

set_option maxRecDepth 4000

/-- A JS string, modelled as its list of characters. -/
abbrev JStr := List Char

/-- Characters the sentence splitter treats as terminal punctuation. -/
def isTerminalPunct (c : Char) : Bool := c = '.' || c = '!' || c = '?'

/-- JS whitespace, for the regexp escape s. -/
def isWS (c : Char) : Bool := c.isWhitespace

/-- Split on single delimiter characters, keeping empty segments. -/
def splitOnP (p : Char → Bool) : JStr → List JStr
  | [] => [[]]
  | c :: rest =>
    if p c then [] :: splitOnP p rest
    else
      match splitOnP p rest with
      | [] => [[c]]
      | s :: ss => (c :: s) :: ss

/-- JS String.trim: drop leading and trailing whitespace. -/
def trimWS (s : JStr) : JStr := ((s.dropWhile isWS).reverse.dropWhile isWS).reverse

/-- DocumentProcessor.splitIntoSentences: split the text on runs of terminal
    punctuation, trim each segment, keep the nonempty ones. Splitting on runs
    of terminators only differs from splitting on single terminators by empty
    segments, which the final filter removes, so the single-character split is
    used here. -/
def DocumentProcessor.splitIntoSentences (text : JStr) : List JStr :=
  ((splitOnP isTerminalPunct text).map trimWS).filter (fun s => s.length > 0)

/-- JS Array.join with a single-space separator. -/
def joinSp : List JStr → JStr
  | [] => []
  | [w] => w
  | w :: ws => w ++ ' ' :: joinSp ws

/-- JS s.split on runs of whitespace: the maximal non-whitespace runs, plus one
    empty segment at an end that begins or ends with whitespace; the empty
    string gives a single empty segment. -/
def wordsJS : JStr → List JStr
  | [] => [[]]
  | c :: rest =>
    (if isWS c then [[]] else [])
      ++ ((splitOnP isWS (c :: rest)).filter (fun w => w ≠ []))
      ++ (if isWS ((c :: rest).getLastD c) then [[]] else [])

/-- JS Array.slice with a negated count: the last n elements, except that
    slice of minus zero is slice of zero, the whole array. -/
def sliceNeg (l : List α) (n : Nat) : List α :=
  if n = 0 then l else l.drop (l.length - n)

/-- Chunking configuration (preserveStructure is unused by chunkText). -/
structure ChunkingConfig where
  chunkSize : Nat
  chunkOverlap : Nat
  minChunkSize : Nat
deriving DecidableEq, Repr

/-- DocumentProcessor.getOverlapText: the floor of words.length times the ratio
    chunkOverlap over chunkSize, then the trailing slice joined by spaces. The
    floating-point product is modelled by exact arithmetic; for chunkSize zero
    JS produces Infinity and slices the whole array, which Nat division (zero)
    plus the slice quirk above reproduces. -/
def DocumentProcessor.getOverlapText (cfg : ChunkingConfig) (text : JStr) : JStr :=
  let words := wordsJS text
  let overlapWords := words.length * cfg.chunkOverlap / cfg.chunkSize
  joinSp (sliceNeg words overlapWords)

/-- Rough line estimation: ceiling of length over 80 characters per line. -/
def estimateLines (text : JStr) : Int := Int.ofNat ((text.length + 79) / 80)

/-- Chunk metadata fields computed by chunkText (sourceKind, sourcePathOrUrl
    and fileHash are constants of the ingestion run and are omitted). -/
structure ChunkMetadata where
  lineStart : Int
  lineEnd : Int
  chunkSize : Nat
  totalChunks : Nat
deriving DecidableEq, Repr

/-- DocumentChunk restricted to the fields chunkText computes (id and
    documentId are fresh UUIDs). -/
structure DocumentChunk where
  chunkIndex : Nat
  content : JStr
  metadata : ChunkMetadata
deriving DecidableEq, Repr

/-- DocumentProcessor.createChunk: totalChunks is zero until backfilled. -/
def DocumentProcessor.createChunk (content : JStr) (chunkIndex : Nat)
    (lineStart lineEnd : Int) : DocumentChunk :=
  { chunkIndex := chunkIndex
    content := content
    metadata :=
      { lineStart := lineStart
        lineEnd := lineEnd
        chunkSize := content.length
        totalChunks := 0 } }

/-- The overlap seed planted at the start of the chunk that follows prev: the
    overlap text plus the joining space, empty when the overlap text is empty
    (JS: overlapText plus a space when overlapText is truthy). -/
def overlapSeed (cfg : ChunkingConfig) (prev : JStr) : JStr :=
  let ov := DocumentProcessor.getOverlapText cfg prev
  ov ++ (if ov = [] then [] else [' '])

/-- The sentence loop of DocumentProcessor.chunkText: greedy accumulation,
    emission with overlap seeding, and the trailing-buffer check. -/
def chunkTextLoop (cfg : ChunkingConfig) :
    List JStr → JStr → Nat → Int → Int → List DocumentChunk
  | [], currentChunk, idx, ls, le =>
    if currentChunk.length ≥ cfg.minChunkSize then
      [DocumentProcessor.createChunk currentChunk idx ls le]
    else []
  | sentence :: rest, currentChunk, idx, ls, le =>
    let potentialChunk :=
      if currentChunk = [] then sentence else currentChunk ++ ' ' :: sentence
    if potentialChunk.length > cfg.chunkSize ∧ currentChunk.length > cfg.minChunkSize then
      DocumentProcessor.createChunk currentChunk idx ls le ::
        chunkTextLoop cfg rest (overlapSeed cfg currentChunk ++ sentence) (idx + 1)
          (le - estimateLines (DocumentProcessor.getOverlapText cfg currentChunk))
          (le + estimateLines sentence)
    else
      chunkTextLoop cfg rest potentialChunk idx ls (le + estimateLines sentence)

/-- DocumentProcessor.chunkText: run the sentence loop from an empty buffer,
    then backfill totalChunks uniformly. -/
def DocumentProcessor.chunkText (cfg : ChunkingConfig) (text : JStr) : List DocumentChunk :=
  let raw := chunkTextLoop cfg (DocumentProcessor.splitIntoSentences text) [] 0 1 1
  raw.map (fun c => { c with metadata := { c.metadata with totalChunks := raw.length } })

/-- Remove from c the overlap duplication it carries from the preceding chunk. -/
def stripSeed (cfg : ChunkingConfig) (prev c : JStr) : JStr :=
  c.drop (overlapSeed cfg prev).length

/-- Strip each chunk content of the overlap seed of its predecessor. -/
def dedupAux (cfg : ChunkingConfig) : JStr → List JStr → List JStr
  | _, [] => []
  | prev, c :: cs => stripSeed cfg prev c :: dedupAux cfg c cs

/-- Concatenation of a chunk-content sequence minus the overlap duplication
    between consecutive chunks. -/
def reconstruct (cfg : ChunkingConfig) : List JStr → JStr
  | [] => []
  | c :: cs => joinSp (c :: dedupAux cfg c cs)

/-- The length-bound property claimed of chunkText: every chunk except
    possibly the last, or a single sentence longer than chunkSize, has content
    length between minChunkSize and chunkSize. -/
def chunkWithinBounds (cfg : ChunkingConfig) (text : JStr) : Prop :=
  ∀ c ∈ DocumentProcessor.chunkText cfg text,
    c.chunkIndex = (DocumentProcessor.chunkText cfg text).length - 1 ∨
    (c.content ∈ DocumentProcessor.splitIntoSentences text ∧
      c.content.length > cfg.chunkSize) ∨
    (cfg.minChunkSize ≤ c.content.length ∧ c.content.length ≤ cfg.chunkSize)

instance (cfg : ChunkingConfig) (text : JStr) : Decidable (chunkWithinBounds cfg text) := by
  unfold chunkWithinBounds
  infer_instance

/- Generation client (OllamaClient): the EvidenceTracedResponse schema, its
   validator, and the bounded-retry generation loop. Model replies are
   modelled as already-parsed JSON values; a failed model call or a JSON.parse
   failure is a missing value. -/

/-- Shape of an evidence pointer in the EvidenceTracedResponse schema
    (ollama-client.ts); optional numbers are absent-or-number. -/
structure EvidencePointer where
  sourcePathOrUrl : String
  page : Option ℚ
  lineStart : Option ℚ
  lineEnd : Option ℚ
  snippet : Option String
deriving DecidableEq, Repr

/-- Shape of a claim in the EvidenceTracedResponse schema. -/
structure Claim where
  text : String
  evidencePointers : List EvidencePointer
  guidelineIds : List String
  attributeIds : List String
  confidence : ℚ
deriving DecidableEq, Repr

/-- Shape of a full EvidenceTracedResponse. -/
structure EvidenceTracedResponse where
  claims : List Claim
  summary : String
  overallConfidence : ℚ
  evidenceGaps : Option (List String)
deriving DecidableEq, Repr

/-- Parsed JSON values (the output of JSON.parse on a model reply). -/
inductive Json where
  | num (q : ℚ)
  | str (s : String)
  | bool (b : Bool)
  | null
  | arr (elements : List Json)
  | obj (fields : List (String × Json))

/-- Field lookup in a JSON object. -/
def Json.getField (fields : List (String × Json)) (key : String) : Option Json :=
  (fields.find? (fun p => p.1 == key)).map (fun p => p.2)

/-- Zod z.string coercion. -/
def Json.asStr : Json → Option String
  | .str s => some s
  | _ => none

/-- Zod z.number coercion. -/
def Json.asNum : Json → Option ℚ
  | .num q => some q
  | _ => none

/-- Zod z.array coercion. -/
def Json.asArr : Json → Option (List Json)
  | .arr xs => some xs
  | _ => none

/-- A required object field, validated by f. -/
def reqField (fields : List (String × Json)) (key : String)
    (f : Json → Option α) : Option α :=
  (Json.getField fields key).bind f

/-- An optional object field: absent is fine, present must validate (null is a
    present value and fails a number or string validator, as in zod). -/
def optField (fields : List (String × Json)) (key : String)
    (f : Json → Option α) : Option (Option α) :=
  match Json.getField fields key with
  | none => some none
  | some j => (f j).map some

/-- Validator for one evidence pointer, following EvidenceTracedResponseSchema:
    sourcePathOrUrl required string; page, lineStart, lineEnd optional numbers;
    snippet optional string. -/
def validatePointer : Json → Option EvidencePointer
  | .obj fields => do
    let sourcePathOrUrl ← reqField fields "sourcePathOrUrl" Json.asStr
    let page ← optField fields "page" Json.asNum
    let lineStart ← optField fields "lineStart" Json.asNum
    let lineEnd ← optField fields "lineEnd" Json.asNum
    let snippet ← optField fields "snippet" Json.asStr
    pure (EvidencePointer.mk sourcePathOrUrl page lineStart lineEnd snippet)
  | _ => none

/-- Validator for one claim: text string, evidencePointers an array of valid
    pointers with no minimum length constraint (the schema places none),
    guidelineIds and attributeIds arrays of strings, confidence a number
    between zero and one. -/
def validateClaim : Json → Option Claim
  | .obj fields => do
    let text ← reqField fields "text" Json.asStr
    let pointerJsons ← reqField fields "evidencePointers" Json.asArr
    let evidencePointers ← pointerJsons.mapM validatePointer
    let guidelineJsons ← reqField fields "guidelineIds" Json.asArr
    let guidelineIds ← guidelineJsons.mapM Json.asStr
    let attributeJsons ← reqField fields "attributeIds" Json.asArr
    let attributeIds ← attributeJsons.mapM Json.asStr
    let confidence ← reqField fields "confidence" Json.asNum
    if 0 ≤ confidence ∧ confidence ≤ 1 then
      pure (Claim.mk text evidencePointers guidelineIds attributeIds confidence)
    else none
  | _ => none

/-- EvidenceTracedResponseSchema.parse: claims array, summary string,
    overallConfidence number in the unit interval, optional evidenceGaps
    string array. Unknown keys are ignored, as zod does by default. -/
def validateETR : Json → Option EvidenceTracedResponse
  | .obj fields => do
    let claimJsons ← reqField fields "claims" Json.asArr
    let claims ← claimJsons.mapM validateClaim
    let summary ← reqField fields "summary" Json.asStr
    let overallConfidence ← reqField fields "overallConfidence" Json.asNum
    if 0 ≤ overallConfidence ∧ overallConfidence ≤ 1 then
      let gapJsons ← optField fields "evidenceGaps" Json.asArr
      match gapJsons with
      | none => pure (EvidenceTracedResponse.mk claims summary overallConfidence none)
      | some gj => do
        let gaps ← gj.mapM Json.asStr
        pure (EvidenceTracedResponse.mk claims summary overallConfidence (some gaps))
    else none
  | _ => none

/-- The canonical degraded response returned when the final attempt fails. -/
def degradedResponse : EvidenceTracedResponse :=
  { claims := []
    summary := "Insufficient evidence to make reliable claims"
    overallConfidence := 0
    evidenceGaps := some ["Unable to process context or generate valid response"] }

/-- The retry loop of OllamaClient.generateEvidenceTracedResponse. attempts
    gives the parsed JSON of each model reply (none when the call or
    JSON.parse throws); an attempt succeeds when that JSON validates. The JS
    for-loop counter is carried here together with structural fuel equal to
    the remaining iterations, so running out of fuel is exactly the loop
    condition attempt < retries turning false, which reaches the final throw. -/
def OllamaClient.generateAttempts (attempts : Int → Option Json) (retries : Int) :
    Nat → Int → Except String EvidenceTracedResponse
  | 0, _ => .error "All retry attempts failed"
  | fuel + 1, attempt =>
    match (attempts attempt).bind validateETR with
    | some validated => .ok validated
    | none =>
      if attempt = retries - 1 then .ok degradedResponse
      else OllamaClient.generateAttempts attempts retries fuel (attempt + 1)

/-- OllamaClient.generateEvidenceTracedResponse (the retries parameter
    defaults to 3 in the source): run the loop from attempt zero; the loop
    executes max(retries, 0) iterations. -/
def OllamaClient.generateEvidenceTracedResponse (attempts : Int → Option Json)
    (retries : Int) : Except String EvidenceTracedResponse :=
  OllamaClient.generateAttempts attempts retries retries.toNat 0

/- RAG pipeline (rag-pipeline.ts): retrieved chunks, the confidence filter and
   short-circuit, optional reranking, context building, generation, and
   evidence reconciliation. Scores are exact rationals. -/

/-- Chunk metadata as the pipeline reads it back from the store. -/
structure PChunkMetadata where
  sourcePathOrUrl : String
  page : Option ℚ
  lineStart : Option ℚ
  lineEnd : Option ℚ
deriving DecidableEq, Repr

/-- A stored chunk as the pipeline sees it. -/
structure PChunk where
  id : String
  content : String
  metadata : PChunkMetadata
deriving DecidableEq, Repr

/-- VectorSearchResult on the pipeline side. -/
structure VectorSearchResult where
  chunk : PChunk
  score : ℚ
  distance : ℚ
deriving DecidableEq, Repr

/-- JS falsiness of an optional number: absent, or present and zero. -/
def numFalsy : Option ℚ → Bool
  | none => true
  | some q => decide (q = 0)

/-- JS falsiness of an optional string: absent, or present and empty. -/
def strFalsy : Option String → Bool
  | none => true
  | some s => decide (s = "")

/-- The per-pointer body of RAGPipeline.enhanceEvidencePointers: find the
    context chunk whose source path matches, then run the three conditional
    backfills in order (page; lineStart together with lineEnd; snippet, which
    is the first two hundred characters of the chunk content plus an
    ellipsis). The conditions use JS truthiness. -/
def enhancePointer (contextChunks : List VectorSearchResult)
    (p : EvidencePointer) : EvidencePointer :=
  match contextChunks.find?
      (fun result => result.chunk.metadata.sourcePathOrUrl == p.sourcePathOrUrl) with
  | none => p
  | some matchingChunk =>
    let metadata := matchingChunk.chunk.metadata
    let p1 :=
      if numFalsy p.page && !numFalsy metadata.page then
        { p with page := metadata.page }
      else p
    let p2 :=
      if numFalsy p1.lineStart && !numFalsy metadata.lineStart then
        { p1 with lineStart := metadata.lineStart, lineEnd := metadata.lineEnd }
      else p1
    if strFalsy p2.snippet && !decide (matchingChunk.chunk.content = "") then
      { p2 with snippet := some (matchingChunk.chunk.content.take 200 ++ "...") }
    else p2

/-- RAGPipeline.enhanceEvidencePointers, as a pure transform of the response
    (the source mutates the response in place). -/
def RAGPipeline.enhanceEvidencePointers (response : EvidenceTracedResponse)
    (contextChunks : List VectorSearchResult) : EvidenceTracedResponse :=
  { response with
    claims := response.claims.map (fun claim =>
      { claim with
        evidencePointers := claim.evidencePointers.map (enhancePointer contextChunks) }) }

/-- Optional rational rendered for the context header; an absent value prints
    as the JS template literal does. -/
def optNumText : Option ℚ → String
  | some q => toString q
  | none => "undefined"

/-- One entry of RAGPipeline.buildContext (numeric formatting approximates the
    three-decimal score rendering of the source). -/
def buildContextEntry (index : Nat) (result : VectorSearchResult) : String :=
  "[Source " ++ toString (index + 1) ++ "] " ++ result.chunk.metadata.sourcePathOrUrl
    ++ (match result.chunk.metadata.page with
        | some p => if p = 0 then "" else " (Page " ++ toString p ++ ")"
        | none => "")
    ++ (match result.chunk.metadata.lineStart with
        | some a =>
          if a = 0 then ""
          else " (Lines " ++ toString a ++ "-"
            ++ optNumText result.chunk.metadata.lineEnd ++ ")"
        | none => "")
    ++ "\nScore: " ++ toString result.score
    ++ "\nContent: " ++ result.chunk.content ++ "\n---"

/-- RAGPipeline.buildContext: headers and contents joined by blank lines. -/
def RAGPipeline.buildContext (chunks : List VectorSearchResult) : String :=
  String.intercalate "\n\n" (chunks.enum.map (fun ie => buildContextEntry ie.1 ie.2))

/-- A document entry passed to rerank. -/
structure RerankDoc where
  id : String
  content : String
  score : ℚ
deriving DecidableEq, Repr

/-- The canonical empty-evidence response of RAGPipeline.query. -/
def canonicalEmptyEvidenceResponse : EvidenceTracedResponse :=
  { claims := []
    summary := "No relevant evidence found for the query"
    overallConfidence := 0
    evidenceGaps := some ["Insufficient relevant documents in knowledge base"] }

/-- RAGPipeline.query after retrieval: filter by the confidence threshold,
    short-circuit on an empty survivor set, otherwise optionally rerank, build
    the context, generate, and reconcile evidence. The reranker and generator
    collaborators are oracle parameters; the returned flag records whether the
    generative model was invoked. The lookup of an original chunk by reranked
    id drops unmatched ids where the source asserts non-null. -/
def RAGPipeline.query (confidenceThreshold : ℚ) (enableReranking : Bool)
    (rerankFn : List RerankDoc → List RerankDoc)
    (generateFn : String → EvidenceTracedResponse)
    (retrievedChunks : List VectorSearchResult) :
    EvidenceTracedResponse × Bool :=
  let filteredChunks :=
    retrievedChunks.filter (fun result => confidenceThreshold ≤ result.score)
  if filteredChunks.length = 0 then
    (canonicalEmptyEvidenceResponse, false)
  else
    let rerankedChunks :=
      if enableReranking then
        let documentsToRerank := filteredChunks.map (fun result =>
          RerankDoc.mk result.chunk.id result.chunk.content result.score)
        let rerankedDocs := rerankFn documentsToRerank
        some (rerankedDocs.filterMap (fun doc =>
          (filteredChunks.find? (fun c => c.chunk.id == doc.id)).map
            (fun original => { original with score := doc.score })))
      else none
    let contextChunks := rerankedChunks.getD filteredChunks
    let context := RAGPipeline.buildContext contextChunks
    let response := generateFn context
    (RAGPipeline.enhanceEvidencePointers response contextChunks, true)

/- Vector store (vector-store.ts): the fallback cosine-similarity scan and the
   score mapping of the accelerated path. Embedding components live in the
   reals so that the square roots of the source are exact. -/

/-- A search result on the vector-store side, real-valued scale. -/
structure SearchResultR where
  chunk : PChunk
  score : ℝ
  distance : ℝ

open Classical in
/-- VectorStore.cosineSimilarity: error on a dimension mismatch, zero when
    either norm is zero, else the dot product over the product of norms. -/
noncomputable def VectorStore.cosineSimilarity (a b : List ℝ) : Except String ℝ :=
  if a.length ≠ b.length then .error "Vectors must have the same length"
  else
    let dotProduct := (List.zipWith (fun x y => x * y) a b).sum
    let normA := (a.map (fun x => x * x)).sum
    let normB := (b.map (fun x => x * x)).sum
    if normA = 0 ∨ normB = 0 then .ok 0
    else .ok (dotProduct / (Real.sqrt normA * Real.sqrt normB))

/-- The row loop of VectorStore.cosineSimilaritySearch: each stored row (a
    chunk with its non-null embedding, the SQL filters already applied) is
    scored in order; a thrown dimension mismatch aborts the scan, as in the
    source. -/
noncomputable def cosineScan (queryEmbedding : List ℝ) :
    List (PChunk × List ℝ) → Except String (List SearchResultR)
  | [] => .ok []
  | row :: rest => do
    let similarity ← VectorStore.cosineSimilarity queryEmbedding row.2
    let others ← cosineScan queryEmbedding rest
    pure (SearchResultR.mk row.1 similarity (1 - similarity) :: others)

open Classical in
/-- VectorStore.cosineSimilaritySearch: score every stored row, sort
    descending by score and truncate to topK. -/
noncomputable def VectorStore.cosineSimilaritySearch (queryEmbedding : List ℝ)
    (rows : List (PChunk × List ℝ)) (topK : Nat) :
    Except String (List SearchResultR) := do
  let results ← cosineScan queryEmbedding rows
  pure ((results.mergeSort (fun a b => decide (b.score ≤ a.score))).take topK)

/-- VectorStore.vectorSearch, accelerated path: rows arrive from the native
    index with a raw distance, and each is mapped to score one minus distance
    (ordering and limit are done by the SQL). -/
def VectorStore.vectorSearch (rows : List (PChunk × ℝ)) : List SearchResultR :=
  rows.map (fun row => SearchResultR.mk row.1 (1 - row.2) row.2)

/- Concrete inputs used by counterexamples and witnesses. -/

/-- Configuration for the length-bound counterexample. -/
def cfgC6 : ChunkingConfig := ⟨10, 5, 3⟩

/-- Text whose second sentence is much longer than chunkSize. -/
def textC6 : JStr := "ab. abcdefghijklmnop. cd. ef.".data

/-- Default-like configuration whose minChunkSize exceeds the whole text. -/
def cfgC5 : ChunkingConfig := ⟨100, 20, 100⟩

/-- A short two-sentence text. -/
def textC5 : JStr := "Hi. Bye.".data

/-- A permissive configuration producing one chunk. -/
def cfgW : ChunkingConfig := ⟨100, 20, 1⟩

/-- A short text chunked under cfgW. -/
def textW : JStr := "Hello there. Bye.".data

/-- The single chunk chunkText produces from textW under cfgW. -/
def chunkW : DocumentChunk := ⟨0, "Hello there Bye".data, ⟨1, 3, 15, 1⟩⟩

/-- A stored chunk with full location metadata. -/
def pchunkEx : PChunk := ⟨"chunk-1", "Alpha beta gamma", ⟨"doc.pdf", some 3, some 10, some 20⟩⟩

/-- One retrieval result holding pchunkEx. -/
def ctxEx : List VectorSearchResult := [⟨pchunkEx, 1, 0⟩]

/-- A pointer that already carries a lineEnd but no lineStart. -/
def ptrC7 : EvidencePointer := ⟨"doc.pdf", some 3, none, some 42, some "quoted text"⟩

/-- A response whose single claim cites ptrC7. -/
def respC7 : EvidenceTracedResponse := ⟨[⟨"claim text", [ptrC7], [], [], 1⟩], "sum", 1, none⟩

/-- A retrieved set whose only score is zero. -/
def retrievedLow : List VectorSearchResult := [⟨pchunkEx, 0, 1⟩]

/-- A pointer all of whose optional fields are present and truthy. -/
def ptrFull : EvidencePointer := ⟨"doc.pdf", some 2, some 5, some 6, some "snip"⟩

/-- A schema-valid model reply whose single claim has an empty
    evidencePointers array. -/
def pointerlessReplyJson : Json :=
  .obj
    [("claims", .arr
        [.obj
          [("text", .str "The project tracks earned value"),
            ("evidencePointers", .arr []),
            ("guidelineIds", .arr []),
            ("attributeIds", .arr []),
            ("confidence", .num 1)]]),
      ("summary", .str "summary"),
      ("overallConfidence", .num 1)]

/-- The validated form of pointerlessReplyJson. -/
def pointerlessResponse : EvidenceTracedResponse :=
  { claims :=
      [{ text := "The project tracks earned value"
         evidencePointers := []
         guidelineIds := []
         attributeIds := []
         confidence := 1 }]
    summary := "summary"
    overallConfidence := 1
    evidenceGaps := none }

/- Theorems. Helper lemmas come first, then one theorem per claim with its
   witness or counterexample. -/

lemma createChunk_content (content : JStr) (idx : Nat) (ls le : Int) :
    (DocumentProcessor.createChunk content idx ls le).content = content := rfl

lemma chunkTextLoop_min_le (cfg : ChunkingConfig) (ss : List JStr) :
    ∀ (cur : JStr) (idx : Nat) (ls le : Int) (c : DocumentChunk),
      c ∈ chunkTextLoop cfg ss cur idx ls le → cfg.minChunkSize ≤ c.content.length := by
  induction ss with
  | nil =>
    intro cur idx ls le c hc
    simp only [chunkTextLoop] at hc
    split at hc
    · next h =>
      rw [List.mem_singleton] at hc
      subst hc
      simpa [DocumentProcessor.createChunk] using h
    · simp at hc
  | cons s rest ih =>
    intro cur idx ls le c hc
    simp only [chunkTextLoop] at hc
    split at hc <;> split at hc
    all_goals
      first
      | exact ih _ _ _ _ _ hc
      | (rename_i hcond
         rcases List.mem_cons.mp hc with h1 | h1
         · subst h1
           simpa [DocumentProcessor.createChunk] using Nat.le_of_lt hcond.2
         · exact ih _ _ _ _ _ h1)

/-- C6 (as stated) is false: under configuration cfgC6 the first chunk of
    textC6 is not the last chunk, is not a single oversized sentence, and its
    length exceeds chunkSize. -/
theorem chunk_length_bounds_claim_false : ¬ chunkWithinBounds cfgC6 textC6 := by decide

/-- C6 (amended): every chunk chunkText produces, the last included, has
    content length at least minChunkSize; no upper bound by chunkSize holds
    beyond the claimed exceptions, since a sentence appended while the buffer
    is still at or below minChunkSize, or a large overlap seed, can push a
    non-final multi-sentence chunk past chunkSize. -/
theorem chunkText_min_length (cfg : ChunkingConfig) (text : JStr) :
    ∀ c ∈ DocumentProcessor.chunkText cfg text,
      cfg.minChunkSize ≤ c.content.length := by
  intro c hc
  simp only [DocumentProcessor.chunkText, List.mem_map] at hc
  obtain ⟨a, ha, rfl⟩ := hc
  simpa using chunkTextLoop_min_le cfg _ _ _ _ _ a ha

/-- Witness: the single chunk of textW under cfgW meets the lower bound. -/
theorem chunkText_min_length_witness :
    chunkW ∈ DocumentProcessor.chunkText cfgW textW ∧
      cfgW.minChunkSize ≤ chunkW.content.length :=
  ⟨by decide, chunkText_min_length cfgW textW chunkW (by decide)⟩

/-- C8: totalChunks is backfilled uniformly, so every chunk of one document
    carries the total chunk count of that document. -/
theorem chunkText_totalChunks_uniform (cfg : ChunkingConfig) (text : JStr) :
    ∀ c ∈ DocumentProcessor.chunkText cfg text,
      c.metadata.totalChunks = (DocumentProcessor.chunkText cfg text).length := by
  intro c hc
  simp only [DocumentProcessor.chunkText, List.mem_map] at hc
  obtain ⟨a, _, rfl⟩ := hc
  simp [DocumentProcessor.chunkText]

/-- Witness: the single chunk of textW records a total of one chunk. -/
theorem chunkText_totalChunks_uniform_witness :
    chunkW ∈ DocumentProcessor.chunkText cfgW textW ∧
      chunkW.metadata.totalChunks = (DocumentProcessor.chunkText cfgW textW).length :=
  ⟨by decide, chunkText_totalChunks_uniform cfgW textW chunkW (by decide)⟩

/-- C5 (as stated) is false: under cfgC5 the whole text falls below
    minChunkSize, the trailing buffer is dropped, no chunk is produced, and
    the reconstruction is empty rather than the original text (the sentence
    splitter also discards the terminal punctuation of the text). -/
theorem chunk_concat_not_original_text :
    reconstruct cfgC5 ((DocumentProcessor.chunkText cfgC5 textC5).map DocumentChunk.content)
      ≠ textC5 := by decide

lemma joinSp_cons (w : JStr) (ws : List JStr) (h : ws ≠ []) :
    joinSp (w :: ws) = w ++ ' ' :: joinSp ws := by
  cases ws with
  | nil => exact absurd rfl h
  | cons y ys => rfl

lemma joinSp_singleton (w : JStr) : joinSp [w] = w := rfl

lemma joinSp_ne_nil (x : JStr) (xs : List JStr) (hx : x ≠ []) : joinSp (x :: xs) ≠ [] := by
  cases xs with
  | nil => simpa [joinSp] using hx
  | cons y ys => simp [joinSp_cons]

lemma joinSp_append (xs ys : List JStr) (hx : xs ≠ []) (hy : ys ≠ []) :
    joinSp (xs ++ ys) = joinSp xs ++ ' ' :: joinSp ys := by
  induction xs with
  | nil => exact absurd rfl hx
  | cons x xt ih =>
    cases xt with
    | nil =>
      cases ys with
      | nil => exact absurd rfl hy
      | cons y yt => simp [joinSp_cons, joinSp_singleton]
    | cons x2 xt2 =>
      have h2 : (x2 :: xt2) ++ ys ≠ [] := by simp
      rw [List.cons_append, joinSp_cons _ _ h2, ih (by simp),
        joinSp_cons x (x2 :: xt2) (by simp)]
      simp

lemma stripSeed_seed_append (cfg : ChunkingConfig) (prev t : JStr) :
    stripSeed cfg prev (overlapSeed cfg prev ++ t) = t := by
  simp [stripSeed, List.drop_left]

lemma dedupAux_ne_nil (cfg : ChunkingConfig) (prev : JStr) (l : List JStr) (h : l ≠ []) :
    dedupAux cfg prev l ≠ [] := by
  cases l with
  | nil => exact absurd rfl h
  | cons c cs => simp [dedupAux]

lemma chunkTextLoop_dedup (cfg : ChunkingConfig) (ss : List JStr) :
    ∀ (prev : JStr) (rest : List JStr) (idx : Nat) (ls le : Int),
      (∀ s ∈ ss, s ≠ []) → rest ≠ [] → (∀ r ∈ rest, r ≠ []) →
      chunkTextLoop cfg ss (overlapSeed cfg prev ++ joinSp rest) idx ls le = [] ∨
      ∃ pre suf, ss = pre ++ suf ∧
        joinSp (dedupAux cfg prev
          ((chunkTextLoop cfg ss (overlapSeed cfg prev ++ joinSp rest) idx ls le).map
            DocumentChunk.content)) = joinSp (rest ++ pre) := by
  induction ss with
  | nil =>
    intro prev rest idx ls le hss hrne hrests
    simp only [chunkTextLoop]
    split
    · right
      refine ⟨[], [], by simp, ?_⟩
      simp [dedupAux, DocumentProcessor.createChunk, stripSeed_seed_append, joinSp_singleton]
    · left; rfl
  | cons s ss2 ih =>
    intro prev rest idx ls le hss hrne hrests
    have hs : s ≠ [] := hss s (by simp)
    have hss2 : ∀ x ∈ ss2, x ≠ [] := fun x hx => hss x (by simp [hx])
    obtain ⟨r0, rt, rfl⟩ := List.exists_cons_of_ne_nil hrne
    have hr0 : r0 ≠ [] := hrests r0 (by simp)
    have hjr : joinSp (r0 :: rt) ≠ [] := joinSp_ne_nil r0 rt hr0
    have hcur : overlapSeed cfg prev ++ joinSp (r0 :: rt) ≠ [] := by
      simp [List.append_eq_nil]
      intro _ h
      exact hjr h
    simp only [chunkTextLoop, if_neg hcur]
    split
    · -- emission: the buffer is emitted and the next buffer is seeded
      rename_i hcond
      have hpot :
          (overlapSeed cfg prev ++ joinSp (r0 :: rt)) ++ ' ' :: s =
            overlapSeed cfg prev ++ joinSp ((r0 :: rt) ++ [s]) := by
        rw [joinSp_append (r0 :: rt) [s] (by simp) (by simp), joinSp_singleton,
          List.append_assoc]
      rcases ih (overlapSeed cfg prev ++ joinSp (r0 :: rt)) [s] (idx + 1)
          (le - estimateLines
            (DocumentProcessor.getOverlapText cfg (overlapSeed cfg prev ++ joinSp (r0 :: rt))))
          (le + estimateLines s) hss2 (by simp) (by simpa using hs) with hL | hL
      · right
        refine ⟨[], s :: ss2, by simp, ?_⟩
        rw [show joinSp [s] = s from rfl] at hL
        rw [hL]
        simp [dedupAux, DocumentProcessor.createChunk, stripSeed_seed_append, joinSp_singleton]
      · obtain ⟨pre2, suf2, hsp2, heq2⟩ := hL
        rw [show joinSp [s] = s from rfl] at heq2
        right
        refine ⟨s :: pre2, suf2, by simp [hsp2], ?_⟩
        have hLne : chunkTextLoop cfg ss2
            (overlapSeed cfg (overlapSeed cfg prev ++ joinSp (r0 :: rt)) ++ s) (idx + 1)
            (le - estimateLines
              (DocumentProcessor.getOverlapText cfg (overlapSeed cfg prev ++ joinSp (r0 :: rt))))
            (le + estimateLines s) ≠ [] := by
          intro hnil
          rw [hnil] at heq2
          exact joinSp_ne_nil s pre2 hs (by simpa [dedupAux, joinSp] using heq2.symm)
        simp only [List.singleton_append] at heq2
        rw [List.map_cons, dedupAux, createChunk_content, stripSeed_seed_append,
          joinSp_cons _ _ (dedupAux_ne_nil cfg _ _ (by simpa using hLne)), heq2,
          ← joinSp_append (r0 :: rt) (s :: pre2) (by simp) (by simp)]
    · -- no emission: the sentence is appended to the buffer
      rename_i hcond
      have hpot :
          (overlapSeed cfg prev ++ joinSp (r0 :: rt)) ++ ' ' :: s =
            overlapSeed cfg prev ++ joinSp ((r0 :: rt) ++ [s]) := by
        rw [joinSp_append (r0 :: rt) [s] (by simp) (by simp), joinSp_singleton,
          List.append_assoc]
      rw [hpot]
      rcases ih prev ((r0 :: rt) ++ [s]) idx ls (le + estimateLines s) hss2 (by simp)
          (by intro r hr; rcases List.mem_append.mp hr with h | h
              · exact hrests r h
              · simpa [List.mem_singleton.mp h]) with hL | hL
      · left; exact hL
      · obtain ⟨pre2, suf2, hsp2, heq2⟩ := hL
        right
        refine ⟨s :: pre2, suf2, by simp [hsp2], ?_⟩
        rw [heq2, List.append_assoc]
        rfl

lemma chunkTextLoop_reconstruct (cfg : ChunkingConfig) (ss : List JStr) :
    ∀ (done : List JStr) (idx : Nat) (ls le : Int),
      (∀ s ∈ ss, s ≠ []) → (∀ d ∈ done, d ≠ []) →
      ∃ pre suf, ss = pre ++ suf ∧
        (reconstruct cfg ((chunkTextLoop cfg ss (joinSp done) idx ls le).map
            DocumentChunk.content) = joinSp (done ++ pre) ∨
          (chunkTextLoop cfg ss (joinSp done) idx ls le = [] ∧ pre = [])) := by
  induction ss with
  | nil =>
    intro done idx ls le hss hdone
    refine ⟨[], [], rfl, ?_⟩
    simp only [chunkTextLoop]
    split
    · left
      simp [reconstruct, dedupAux, DocumentProcessor.createChunk, joinSp_singleton]
    · right
      simp
  | cons s ss2 ih =>
    intro done idx ls le hss hdone
    have hs : s ≠ [] := hss s (by simp)
    have hss2 : ∀ x ∈ ss2, x ≠ [] := fun x hx => hss x (by simp [hx])
    have hpot : (if joinSp done = [] then s else joinSp done ++ ' ' :: s) =
        joinSp (done ++ [s]) := by
      cases done with
      | nil => simp [joinSp]
      | cons d dt =>
        have hd : d ≠ [] := hdone d (by simp)
        rw [if_neg (joinSp_ne_nil d dt hd),
          joinSp_append (d :: dt) [s] (by simp) (by simp), joinSp_singleton]
    simp only [chunkTextLoop]
    rw [hpot]
    split
    · -- emission branch
      rename_i hcond
      have hcur : joinSp done ≠ [] :=
        List.ne_nil_of_length_pos (Nat.lt_of_le_of_lt (Nat.zero_le _) hcond.2)
      have hdne : done ≠ [] := by
        intro h
        rw [h] at hcur
        exact hcur rfl
      rcases chunkTextLoop_dedup cfg ss2 (joinSp done) [s] (idx + 1)
          (le - estimateLines (DocumentProcessor.getOverlapText cfg (joinSp done)))
          (le + estimateLines s) hss2 (by simp) (by simpa using hs) with hL | hL
      · refine ⟨[], s :: ss2, by simp, Or.inl ?_⟩
        rw [show overlapSeed cfg (joinSp done) ++ joinSp [s] =
            overlapSeed cfg (joinSp done) ++ s from rfl] at hL
        rw [hL]
        simp [reconstruct, dedupAux, DocumentProcessor.createChunk, joinSp_singleton]
      · obtain ⟨pre2, suf2, hsp2, heq2⟩ := hL
        rw [show overlapSeed cfg (joinSp done) ++ joinSp [s] =
            overlapSeed cfg (joinSp done) ++ s from rfl] at heq2
        simp only [List.singleton_append] at heq2
        have hLne : chunkTextLoop cfg ss2 (overlapSeed cfg (joinSp done) ++ s) (idx + 1)
            (le - estimateLines (DocumentProcessor.getOverlapText cfg (joinSp done)))
            (le + estimateLines s) ≠ [] := by
          intro hnil
          rw [hnil] at heq2
          exact joinSp_ne_nil s pre2 hs (by simpa [dedupAux, joinSp] using heq2.symm)
        refine ⟨s :: pre2, suf2, by simp [hsp2], Or.inl ?_⟩
        rw [List.map_cons, createChunk_content, reconstruct,
          joinSp_cons _ _ (dedupAux_ne_nil cfg _ _ (by simpa using hLne)), heq2,
          ← joinSp_append done (s :: pre2) hdne (by simp)]
    · -- append branch
      have hdone2 : ∀ d ∈ done ++ [s], d ≠ [] := by
        intro d hd
        rcases List.mem_append.mp hd with h | h
        · exact hdone d h
        · simpa [List.mem_singleton.mp h]
      rcases ih (done ++ [s]) idx ls (le + estimateLines s) hss2 hdone2 with
        ⟨pre2, suf2, hsp2, hcase⟩
      rcases hcase with hrec | ⟨hnil, hpre⟩
      · refine ⟨s :: pre2, suf2, by simp [hsp2], Or.inl ?_⟩
        rw [hrec, List.append_assoc]
        rfl
      · exact ⟨[], s :: ss2, by simp, Or.inr ⟨hnil, rfl⟩⟩

lemma splitIntoSentences_ne_nil (text : JStr) :
    ∀ s ∈ DocumentProcessor.splitIntoSentences text, s ≠ [] := by
  intro s hs
  simp only [DocumentProcessor.splitIntoSentences, List.mem_filter,
    decide_eq_true_eq] at hs
  intro h
  subst h
  simp at hs

/-- C5 (amended): the concatenation of the produced chunks, minus the overlap
    duplication between consecutive chunks, reconstructs the space-joined
    prefix of the sentence units of the text that made it into chunks — the
    whole unit sequence when the trailing buffer is kept — rather than the
    original text itself: terminal punctuation and surrounding whitespace are
    normalized away by the sentence splitter, and a trailing buffer shorter
    than minChunkSize is dropped together with its sentences. -/
theorem chunk_concat_reconstructs_sentence_prefix (cfg : ChunkingConfig) (text : JStr) :
    ∃ done rest, DocumentProcessor.splitIntoSentences text = done ++ rest ∧
      reconstruct cfg ((DocumentProcessor.chunkText cfg text).map DocumentChunk.content) =
        joinSp done := by
  have h0 : joinSp ([] : List JStr) = ([] : JStr) := rfl
  have hmap : (DocumentProcessor.chunkText cfg text).map DocumentChunk.content =
      (chunkTextLoop cfg (DocumentProcessor.splitIntoSentences text) [] 0 1 1).map
        DocumentChunk.content := by
    simp only [DocumentProcessor.chunkText, List.map_map]
    rfl
  obtain ⟨pre, suf, hsp, hcase⟩ :=
    chunkTextLoop_reconstruct cfg (DocumentProcessor.splitIntoSentences text) [] 0 1 1
      (splitIntoSentences_ne_nil text) (by simp)
  rw [h0] at hcase
  rcases hcase with hrec | ⟨hnil, hpre⟩
  · refine ⟨pre, suf, hsp, ?_⟩
    rw [hmap, hrec]
    rfl
  · refine ⟨[], DocumentProcessor.splitIntoSentences text, by simp, ?_⟩
    rw [hmap, hnil]
    rfl

lemma generateAttempts_degraded (attempts : Int → Option Json) (retries : Int)
    (hfail : ∀ n, (attempts n).bind validateETR = none) :
    ∀ (fuel : Nat) (attempt : Int), 1 ≤ fuel → attempt + fuel = retries →
      OllamaClient.generateAttempts attempts retries fuel attempt = .ok degradedResponse := by
  intro fuel
  induction fuel with
  | zero =>
    intro attempt h1 _
    omega
  | succ f ihf =>
    intro attempt _ hsum
    simp only [OllamaClient.generateAttempts, hfail attempt]
    cases f with
    | zero =>
      have : attempt = retries - 1 := by omega
      simp [this]
    | succ f2 =>
      have hne : ¬ attempt = retries - 1 := by omega
      rw [if_neg hne]
      exact ihf (attempt + 1) (by omega) (by omega)

/-- C3: when every attempt fails to produce JSON that validates against the
    schema, a positive retry budget makes generateEvidenceTracedResponse
    return the canonical degraded response deterministically; the failure is
    never propagated as an error and no unvalidated payload is returned. -/
theorem generate_degrades_when_all_attempts_fail (attempts : Int → Option Json)
    (retries : Int) (hret : 1 ≤ retries)
    (hfail : ∀ n, (attempts n).bind validateETR = none) :
    OllamaClient.generateEvidenceTracedResponse attempts retries = .ok degradedResponse :=
  generateAttempts_degraded attempts retries hfail retries.toNat 0 (by omega) (by omega)

/-- Witness: three attempts that all fail to parse degrade to the canonical
    response. -/
theorem generate_degrades_when_all_attempts_fail_witness :
    (1 : Int) ≤ 3 ∧ (∀ n : Int, ((fun _ => none : Int → Option Json) n).bind validateETR = none) ∧
      OllamaClient.generateEvidenceTracedResponse (fun _ => none) 3 = .ok degradedResponse :=
  ⟨by decide, fun _ => rfl,
    generate_degrades_when_all_attempts_fail (fun _ => none) 3 (by decide) (fun _ => rfl)⟩

/-- C10: with a zero or negative retry budget the loop body never runs and
    generateEvidenceTracedResponse throws instead of degrading, for every
    attempts oracle; the non-throwing degraded path needs a budget of at
    least one. -/
theorem generate_throws_on_nonpositive_budget (attempts : Int → Option Json)
    (retries : Int) (h : retries ≤ 0) :
    OllamaClient.generateEvidenceTracedResponse attempts retries =
      .error "All retry attempts failed" := by
  have h0 : retries.toNat = 0 := by omega
  rw [OllamaClient.generateEvidenceTracedResponse, h0]
  rfl

/-- Witness: a zero budget throws even though an attempt would have failed
    anyway. -/
theorem generate_throws_on_nonpositive_budget_witness :
    (0 : Int) ≤ 0 ∧
      OllamaClient.generateEvidenceTracedResponse (fun _ => none) 0 =
        .error "All retry attempts failed" :=
  ⟨by decide, generate_throws_on_nonpositive_budget (fun _ => none) 0 (by decide)⟩

/-- C2 fails on the code and the code contradicts its own system prompt, which
    forbids claims without evidence pointers: the zod schema places no minimum
    length on evidencePointers, so a reply whose claim has an empty pointer
    array validates successfully and is accepted by the first attempt of
    generateEvidenceTracedResponse instead of triggering a retry. -/
theorem schema_accepts_pointerless_claim :
    validateETR pointerlessReplyJson = some pointerlessResponse ∧
      OllamaClient.generateEvidenceTracedResponse (fun _ => some pointerlessReplyJson) 3 =
        .ok pointerlessResponse ∧
      pointerlessResponse.claims.all (fun c => c.evidencePointers.isEmpty) = true :=
  ⟨rfl, rfl, rfl⟩

/-- C1: when no retrieved chunk reaches the confidence threshold the filter
    leaves nothing, query returns the canonical empty-evidence response with
    zero confidence and no claims, and the generative model is not invoked
    (the invocation flag is false). -/
theorem query_short_circuits_without_evidence (confidenceThreshold : ℚ)
    (enableReranking : Bool) (rerankFn : List RerankDoc → List RerankDoc)
    (generateFn : String → EvidenceTracedResponse)
    (retrievedChunks : List VectorSearchResult)
    (h : ∀ r ∈ retrievedChunks, r.score < confidenceThreshold) :
    RAGPipeline.query confidenceThreshold enableReranking rerankFn generateFn
      retrievedChunks = (canonicalEmptyEvidenceResponse, false) := by
  have hfil : retrievedChunks.filter
      (fun result => confidenceThreshold ≤ result.score) = [] := by
    rw [List.filter_eq_nil_iff]
    intro a ha
    simp [not_le.mpr (h a ha)]
  simp [RAGPipeline.query, hfil]

/-- Witness: a retrieval whose only score is zero, against a threshold of one,
    short-circuits. -/
theorem query_short_circuits_without_evidence_witness :
    (∀ r ∈ retrievedLow, r.score < (1 : ℚ)) ∧
      RAGPipeline.query 1 true id (fun _ => degradedResponse) retrievedLow =
        (canonicalEmptyEvidenceResponse, false) :=
  ⟨by decide,
    query_short_circuits_without_evidence 1 true id (fun _ => degradedResponse)
      retrievedLow (by decide)⟩

/-- C7 fails on the code: a pointer that already carries lineEnd forty-two but
    no lineStart has its present lineEnd overwritten by the matching chunk's
    lineEnd twenty when lineStart is backfilled. -/
theorem enhance_overwrites_present_lineEnd :
    respC7.claims.map (fun c => c.evidencePointers.map EvidencePointer.lineEnd) =
        [[some 42]] ∧
      (RAGPipeline.enhanceEvidencePointers respC7 ctxEx).claims.map
        (fun c => c.evidencePointers.map EvidencePointer.lineEnd) = [[some 20]] := by
  decide

lemma enhancePointer_sourcePath (contextChunks : List VectorSearchResult)
    (p : EvidencePointer) :
    (enhancePointer contextChunks p).sourcePathOrUrl = p.sourcePathOrUrl := by
  unfold enhancePointer
  cases contextChunks.find?
      (fun result => result.chunk.metadata.sourcePathOrUrl == p.sourcePathOrUrl) with
  | none => rfl
  | some mc =>
    dsimp only
    split_ifs <;> rfl

lemma enhancePointer_page (contextChunks : List VectorSearchResult)
    (p : EvidencePointer) (h : numFalsy p.page = false) :
    (enhancePointer contextChunks p).page = p.page := by
  unfold enhancePointer
  cases contextChunks.find?
      (fun result => result.chunk.metadata.sourcePathOrUrl == p.sourcePathOrUrl) with
  | none => rfl
  | some mc =>
    simp only [h, Bool.false_and, Bool.false_eq_true, if_false]
    split_ifs <;> rfl

lemma enhancePointer_lineStart (contextChunks : List VectorSearchResult)
    (p : EvidencePointer) (h : numFalsy p.lineStart = false) :
    (enhancePointer contextChunks p).lineStart = p.lineStart ∧
      (enhancePointer contextChunks p).lineEnd = p.lineEnd := by
  unfold enhancePointer
  cases contextChunks.find?
      (fun result => result.chunk.metadata.sourcePathOrUrl == p.sourcePathOrUrl) with
  | none => exact ⟨rfl, rfl⟩
  | some mc =>
    dsimp only
    split_ifs <;> simp_all

lemma enhancePointer_snippet (contextChunks : List VectorSearchResult)
    (p : EvidencePointer) (h : strFalsy p.snippet = false) :
    (enhancePointer contextChunks p).snippet = p.snippet := by
  unfold enhancePointer
  cases contextChunks.find?
      (fun result => result.chunk.metadata.sourcePathOrUrl == p.sourcePathOrUrl) with
  | none => rfl
  | some mc =>
    dsimp only
    split_ifs <;> simp_all

/-- C7 (amended): evidence reconciliation leaves the summary, overall
    confidence, evidence gaps, and every claim's non-pointer fields unchanged,
    never changes a pointer's source path, and preserves page, snippet, and
    lineStart fields that are present (truthy); but whenever it backfills a
    missing lineStart it also copies the chunk's lineEnd, overwriting a
    lineEnd already present on the pointer — present lineEnd is only safe when
    lineStart is present too. -/
theorem enhance_preserves_present_fields (contextChunks : List VectorSearchResult)
    (response : EvidenceTracedResponse) (p : EvidencePointer) :
    (RAGPipeline.enhanceEvidencePointers response contextChunks).summary =
        response.summary ∧
      (RAGPipeline.enhanceEvidencePointers response contextChunks).overallConfidence =
        response.overallConfidence ∧
      (RAGPipeline.enhanceEvidencePointers response contextChunks).evidenceGaps =
        response.evidenceGaps ∧
      (RAGPipeline.enhanceEvidencePointers response contextChunks).claims =
        response.claims.map (fun claim =>
          { claim with
            evidencePointers := claim.evidencePointers.map (enhancePointer contextChunks) }) ∧
      (enhancePointer contextChunks p).sourcePathOrUrl = p.sourcePathOrUrl ∧
      (numFalsy p.page = false → (enhancePointer contextChunks p).page = p.page) ∧
      (numFalsy p.lineStart = false →
        (enhancePointer contextChunks p).lineStart = p.lineStart ∧
          (enhancePointer contextChunks p).lineEnd = p.lineEnd) ∧
      (strFalsy p.snippet = false →
        (enhancePointer contextChunks p).snippet = p.snippet) :=
  ⟨rfl, rfl, rfl, rfl, enhancePointer_sourcePath contextChunks p,
    enhancePointer_page contextChunks p, enhancePointer_lineStart contextChunks p,
    enhancePointer_snippet contextChunks p⟩

/-- Witness: a pointer with page, lineStart, lineEnd and snippet all present
    passes through reconciliation unchanged. -/
theorem enhance_preserves_present_fields_witness :
    numFalsy ptrFull.page = false ∧ numFalsy ptrFull.lineStart = false ∧
      strFalsy ptrFull.snippet = false ∧
      (enhancePointer ctxEx ptrFull).page = ptrFull.page ∧
      (enhancePointer ctxEx ptrFull).lineStart = ptrFull.lineStart ∧
      (enhancePointer ctxEx ptrFull).lineEnd = ptrFull.lineEnd ∧
      (enhancePointer ctxEx ptrFull).snippet = ptrFull.snippet :=
  ⟨by decide, by decide, by decide,
    (enhance_preserves_present_fields ctxEx respC7 ptrFull).2.2.2.2.2.1 (by decide),
    ((enhance_preserves_present_fields ctxEx respC7 ptrFull).2.2.2.2.2.2.1 (by decide)).1,
    ((enhance_preserves_present_fields ctxEx respC7 ptrFull).2.2.2.2.2.2.1 (by decide)).2,
    (enhance_preserves_present_fields ctxEx respC7 ptrFull).2.2.2.2.2.2.2 (by decide)⟩

lemma list_map_sq_sum (a : List ℝ) :
    (a.map (fun x => x * x)).sum =
      ∑ i ∈ Finset.range a.length, a.getD i 0 * a.getD i 0 := by
  induction a with
  | nil => simp
  | cons x xs ih =>
    rw [List.map_cons, List.sum_cons, List.length_cons, Finset.sum_range_succ']
    simp [List.getD_cons_succ, List.getD_cons_zero, ih, add_comm]

lemma list_zipWith_mul_sum (a : List ℝ) :
    ∀ (b : List ℝ), a.length = b.length →
      (List.zipWith (fun x y => x * y) a b).sum =
        ∑ i ∈ Finset.range a.length, a.getD i 0 * b.getD i 0 := by
  induction a with
  | nil => intro b _; simp
  | cons x xs ih =>
    intro b h
    cases b with
    | nil => simp at h
    | cons y ys =>
      rw [List.zipWith_cons_cons, List.sum_cons, List.length_cons,
        Finset.sum_range_succ']
      simp [List.getD_cons_succ, List.getD_cons_zero, ih ys (by simpa using h), add_comm]

lemma list_sq_sum_nonneg (a : List ℝ) : 0 ≤ (a.map (fun x => x * x)).sum := by
  apply List.sum_nonneg
  intro x hx
  simp only [List.mem_map] at hx
  obtain ⟨y, _, rfl⟩ := hx
  exact mul_self_nonneg y

lemma list_cauchy_schwarz (a b : List ℝ) (h : a.length = b.length) :
    ((List.zipWith (fun x y => x * y) a b).sum) ^ 2 ≤
      (a.map (fun x => x * x)).sum * (b.map (fun x => x * x)).sum := by
  rw [list_zipWith_mul_sum a b h, list_map_sq_sum a, list_map_sq_sum b, ← h]
  have hcs := Finset.sum_mul_sq_le_sq_mul_sq (Finset.range a.length)
    (fun i => a.getD i 0) (fun i => b.getD i 0)
  simpa [pow_two] using hcs

lemma cosineSimilarity_bounds (a b : List ℝ) (s : ℝ)
    (h : VectorStore.cosineSimilarity a b = .ok s) : -1 ≤ s ∧ s ≤ 1 := by
  unfold VectorStore.cosineSimilarity at h
  split at h
  · exact absurd h (by simp)
  · rename_i hlen
    have hlen2 : a.length = b.length := not_ne_iff.mp hlen
    dsimp only at h
    split at h
    · rw [Except.ok.injEq] at h
      subst h
      norm_num
    · rename_i hnz
      push_neg at hnz
      rw [Except.ok.injEq] at h
      have hA : 0 ≤ (a.map (fun x => x * x)).sum := list_sq_sum_nonneg a
      have hB : 0 ≤ (b.map (fun x => x * x)).sum := list_sq_sum_nonneg b
      have hApos : 0 < (a.map (fun x => x * x)).sum :=
        lt_of_le_of_ne hA (Ne.symm hnz.1)
      have hBpos : 0 < (b.map (fun x => x * x)).sum :=
        lt_of_le_of_ne hB (Ne.symm hnz.2)
      have hd : 0 < Real.sqrt ((a.map (fun x => x * x)).sum) *
          Real.sqrt ((b.map (fun x => x * x)).sum) :=
        mul_pos (Real.sqrt_pos.mpr hApos) (Real.sqrt_pos.mpr hBpos)
      have hcs := list_cauchy_schwarz a b hlen2
      have h2 := Real.sqrt_le_sqrt hcs
      rw [Real.sqrt_sq_eq_abs, Real.sqrt_mul hA] at h2
      have habs : |s| ≤ 1 := by
        rw [← h, abs_div, abs_of_pos hd]
        exact (div_le_one hd).mpr h2
      exact abs_le.mp habs

lemma cosineSimilarity_ok_of_eq_length (a b : List ℝ) (h : b.length = a.length) :
    ∃ s, VectorStore.cosineSimilarity a b = .ok s := by
  unfold VectorStore.cosineSimilarity
  rw [if_neg (not_ne_iff.mpr h.symm)]
  dsimp only
  split
  · exact ⟨0, rfl⟩
  · exact ⟨_, rfl⟩

lemma cosineScan_ok (q : List ℝ) :
    ∀ (rows : List (PChunk × List ℝ)), (∀ row ∈ rows, row.2.length = q.length) →
      ∃ l, cosineScan q rows = .ok l := by
  intro rows
  induction rows with
  | nil => intro _; exact ⟨[], rfl⟩
  | cons r rs ih =>
    intro hdim
    obtain ⟨s, hs⟩ := cosineSimilarity_ok_of_eq_length q r.2 (hdim r (by simp))
    obtain ⟨l, hl⟩ := ih (fun row hrow => hdim row (by simp [hrow]))
    refine ⟨SearchResultR.mk r.1 s (1 - s) :: l, ?_⟩
    simp only [cosineScan]
    rw [hs, hl]
    rfl

lemma cosineScan_mem (q : List ℝ) :
    ∀ (rows : List (PChunk × List ℝ)) (l : List SearchResultR),
      cosineScan q rows = .ok l → ∀ x ∈ l,
        ∃ row ∈ rows, ∃ s, VectorStore.cosineSimilarity q row.2 = .ok s ∧
          x = SearchResultR.mk row.1 s (1 - s) := by
  intro rows
  induction rows with
  | nil =>
    intro l hl x hx
    simp only [cosineScan, Except.ok.injEq] at hl
    subst hl
    cases hx
  | cons r rs ih =>
    intro l hl x hx
    simp only [cosineScan] at hl
    cases hcs : VectorStore.cosineSimilarity q r.2 with
    | error e =>
      rw [hcs] at hl
      exact Except.noConfusion hl
    | ok s =>
      rw [hcs] at hl
      cases hscan : cosineScan q rs with
      | error e =>
        rw [hscan] at hl
        exact Except.noConfusion hl
      | ok ys =>
        rw [hscan] at hl
        have hl2 : SearchResultR.mk r.1 s (1 - s) :: ys = l := Except.ok.inj hl
        subst hl2
        rcases List.mem_cons.mp hx with rfl | hx2
        · exact ⟨r, by simp, s, hcs, rfl⟩
        · obtain ⟨row, hrow, s2, hs2, hx2⟩ := ih ys hscan x hx2
          exact ⟨row, by simp [hrow], s2, hs2, hx2⟩

/-- C9: cosineSimilarity fails exactly on a dimension mismatch, and under the
    precondition that every stored embedding has the query's dimension the
    fallback scan is total — the error branch is unreachable and
    cosineSimilaritySearch returns a result list. -/
theorem cosine_error_iff_dim_mismatch_and_search_total :
    (∀ a b : List ℝ, (VectorStore.cosineSimilarity a b).isOk = false ↔
        a.length ≠ b.length) ∧
    (∀ (queryEmbedding : List ℝ) (rows : List (PChunk × List ℝ)) (topK : Nat),
      (∀ row ∈ rows, row.2.length = queryEmbedding.length) →
      ∃ res, VectorStore.cosineSimilaritySearch queryEmbedding rows topK = .ok res) := by
  constructor
  · intro a b
    unfold VectorStore.cosineSimilarity
    split
    · rename_i h
      simp [Except.isOk, Except.toBool, h]
    · rename_i h
      dsimp only
      split <;> simp [Except.isOk, Except.toBool, h]
  · intro q rows topK hdim
    obtain ⟨l, hl⟩ := cosineScan_ok q rows hdim
    refine ⟨(l.mergeSort (fun a b => decide (b.score ≤ a.score))).take topK, ?_⟩
    unfold VectorStore.cosineSimilaritySearch
    rw [hl]
    rfl

/-- Witness: a one-dimensional query against a matching one-dimensional store
    searches successfully, while a two-dimensional embedding is rejected. -/
theorem cosine_error_iff_dim_mismatch_and_search_total_witness :
    ((VectorStore.cosineSimilarity [(1 : ℝ)] [(1 : ℝ), 2]).isOk = false ↔
        ([(1 : ℝ)].length ≠ ([(1 : ℝ), 2]).length)) ∧
      (∀ row ∈ [(pchunkEx, [(1 : ℝ)])], row.2.length = [(1 : ℝ)].length) ∧
      (∃ res, VectorStore.cosineSimilaritySearch [(1 : ℝ)] [(pchunkEx, [(1 : ℝ)])] 10 =
        .ok res) :=
  ⟨cosine_error_iff_dim_mismatch_and_search_total.1 [1] [1, 2], by simp,
    cosine_error_iff_dim_mismatch_and_search_total.2 [1] [(pchunkEx, [1])] 10 (by simp)⟩

/-- C4 (as stated) is false: on the fallback path an embedding opposite to the
    query yields cosine similarity minus one, so the returned score is below
    zero and outside the unit interval. -/
theorem fallback_score_not_in_unit_interval :
    VectorStore.cosineSimilaritySearch [(1 : ℝ)] [(pchunkEx, [(-1 : ℝ)])] 10 =
      .ok [SearchResultR.mk pchunkEx (-1) 2] ∧ ((-1 : ℝ) < 0) := by
  constructor
  · have hcs : VectorStore.cosineSimilarity [(1 : ℝ)] [(-1 : ℝ)] = .ok (-1) := by
      unfold VectorStore.cosineSimilarity
      rw [if_neg (by simp)]
      dsimp only
      rw [if_neg (by norm_num)]
      norm_num [Real.sqrt_one]
    have hscan : cosineScan [(1 : ℝ)] [(pchunkEx, [(-1 : ℝ)])] =
        .ok [SearchResultR.mk pchunkEx (-1) 2] := by
      simp only [cosineScan]
      rw [hcs]
      show (Except.ok [SearchResultR.mk pchunkEx (-1) (1 - (-1))] :
        Except String (List SearchResultR)) = _
      norm_num
    unfold VectorStore.cosineSimilaritySearch
    rw [hscan]
    show (Except.ok (((([SearchResultR.mk pchunkEx (-1) 2]).mergeSort
        (fun a b => decide (b.score ≤ a.score))).take 10)) :
      Except String (List SearchResultR)) = _
    rw [List.mergeSort_singleton]
    rfl
  · norm_num

/-- C4 (amended): both search paths agree that distance is one minus score for
    every returned result, and the fallback path's scores are genuine cosine
    similarities lying in the interval from minus one to one (zero for a
    zero-norm vector); the claimed zero-to-one scale does not hold, and the
    accelerated path guarantees only the distance relation, its score being
    one minus whatever raw distance the native index reports. -/
theorem search_paths_distance_eq_one_sub_score :
    (∀ (rows : List (PChunk × ℝ)), ∀ r ∈ VectorStore.vectorSearch rows,
        r.distance = 1 - r.score) ∧
    (∀ (queryEmbedding : List ℝ) (rows : List (PChunk × List ℝ)) (topK : Nat)
        (res : List SearchResultR),
      VectorStore.cosineSimilaritySearch queryEmbedding rows topK = .ok res →
      ∀ r ∈ res, r.distance = 1 - r.score ∧ -1 ≤ r.score ∧ r.score ≤ 1) := by
  constructor
  · intro rows r hr
    simp only [VectorStore.vectorSearch, List.mem_map] at hr
    obtain ⟨row, _, rfl⟩ := hr
    show row.2 = 1 - (1 - row.2)
    ring
  · intro q rows topK res hok r hr
    cases hscan : cosineScan q rows with
    | error e =>
      unfold VectorStore.cosineSimilaritySearch at hok
      rw [hscan] at hok
      exact Except.noConfusion hok
    | ok l =>
      unfold VectorStore.cosineSimilaritySearch at hok
      rw [hscan] at hok
      have htake : (l.mergeSort (fun a b => decide (b.score ≤ a.score))).take topK = res :=
        Except.ok.inj hok
      subst htake
      have hr3 : r ∈ l := List.mem_mergeSort.mp (List.mem_of_mem_take hr)
      obtain ⟨row, _, s, hs, rfl⟩ := cosineScan_mem q rows l hscan r hr3
      obtain ⟨hb1, hb2⟩ := cosineSimilarity_bounds q row.2 s hs
      exact ⟨rfl, hb1, hb2⟩

/-- Witness: the accelerated path maps a raw distance of one quarter to score
    three quarters, and the fallback path returns the zero similarity of a
    zero-norm embedding, both with distance one minus score and the fallback
    score within bounds. -/
theorem search_paths_distance_eq_one_sub_score_witness :
    (SearchResultR.mk pchunkEx (1 - (1 / 4 : ℝ)) (1 / 4)) ∈
        VectorStore.vectorSearch [(pchunkEx, (1 / 4 : ℝ))] ∧
      (SearchResultR.mk pchunkEx (1 - (1 / 4 : ℝ)) (1 / 4)).distance =
        1 - (SearchResultR.mk pchunkEx (1 - (1 / 4 : ℝ)) (1 / 4)).score ∧
      VectorStore.cosineSimilaritySearch [(1 : ℝ)] [(pchunkEx, [(0 : ℝ)])] 10 =
        .ok [SearchResultR.mk pchunkEx 0 (1 - 0)] ∧
      ((SearchResultR.mk pchunkEx (0 : ℝ) (1 - 0)).distance =
          1 - (SearchResultR.mk pchunkEx (0 : ℝ) (1 - 0)).score ∧
        -1 ≤ (SearchResultR.mk pchunkEx (0 : ℝ) (1 - 0)).score ∧
        (SearchResultR.mk pchunkEx (0 : ℝ) (1 - 0)).score ≤ 1) := by
  have hcs : VectorStore.cosineSimilarity [(1 : ℝ)] [(0 : ℝ)] = .ok 0 := by
    unfold VectorStore.cosineSimilarity
    rw [if_neg (by simp)]
    dsimp only
    rw [if_pos (by norm_num)]
  have hscan : cosineScan [(1 : ℝ)] [(pchunkEx, [(0 : ℝ)])] =
      .ok [SearchResultR.mk pchunkEx 0 (1 - 0)] := by
    simp only [cosineScan]
    rw [hcs]
    rfl
  have hok : VectorStore.cosineSimilaritySearch [(1 : ℝ)] [(pchunkEx, [(0 : ℝ)])] 10 =
      .ok [SearchResultR.mk pchunkEx 0 (1 - 0)] := by
    unfold VectorStore.cosineSimilaritySearch
    rw [hscan]
    show (Except.ok (((([SearchResultR.mk pchunkEx 0 (1 - 0)]).mergeSort
        (fun a b => decide (b.score ≤ a.score))).take 10)) :
      Except String (List SearchResultR)) = _
    rw [List.mergeSort_singleton]
    rfl
  refine ⟨by simp [VectorStore.vectorSearch], ?_, hok, ?_⟩
  · exact search_paths_distance_eq_one_sub_score.1 [(pchunkEx, (1 / 4 : ℝ))]
      (SearchResultR.mk pchunkEx (1 - (1 / 4 : ℝ)) (1 / 4))
      (by simp [VectorStore.vectorSearch])
  · exact search_paths_distance_eq_one_sub_score.2 [1] [(pchunkEx, [(0 : ℝ)])] 10
      [SearchResultR.mk pchunkEx 0 (1 - 0)] hok
      (SearchResultR.mk pchunkEx 0 (1 - 0)) (by simp)
